import Mathlib

/-!
# Verification of the Autoscrap aggregation-and-ranking pipeline

Shallow embedding of `src/app.py` (query normalizer, site registry,
result cache, aggregator, ranker).  Numeric listing fields (`price`,
`rating`) are modelled as rationals; the Python code computes with
IEEE doubles, but every formula involved (subtraction, addition of the
constant `1e-6`, division, the `0.6`/`0.4` weighting) is modelled
exactly over `ℚ`.
-/

namespace Autoscrap

/-- One listing as produced by `scrape_site` in `src/app.py`:
fields `name`, `price`, `rating`, `link`. -/
structure Listing where
  name : String
  price : ℚ
  rating : ℚ
  link : String
deriving DecidableEq, Repr

/-- Minimum of `f` over a list, as `pandas` `Series.min` computes it on the
corresponding column: the running minimum starting from the first element.
Defined as `0` on the empty list (the code guards with `df.empty`). -/
def listMin (f : Listing → ℚ) : List Listing → ℚ
  | [] => 0
  | x :: xs => xs.foldl (fun m y => min m (f y)) (f x)

/-- Maximum of `f` over a list (`pandas` `Series.max` on the column). -/
def listMax (f : Listing → ℚ) : List Listing → ℚ
  | [] => 0
  | x :: xs => xs.foldl (fun m y => max m (f y)) (f x)

/-- Column minimum `df["price"].min()` in `choose_optimal`. -/
def minPrice (l : List Listing) : ℚ := listMin (fun x => x.price) l

/-- Column maximum `df["price"].max()` in `choose_optimal`. -/
def maxPrice (l : List Listing) : ℚ := listMax (fun x => x.price) l

/-- Column minimum `df["rating"].min()` in `choose_optimal`. -/
def minRating (l : List Listing) : ℚ := listMin (fun x => x.rating) l

/-- Column maximum `df["rating"].max()` in `choose_optimal`. -/
def maxRating (l : List Listing) : ℚ := listMax (fun x => x.rating) l

/-- The `1e-6` constant of `choose_optimal` (`src/app.py` lines 122-123). -/
def eps : ℚ := 1 / 1000000

/-- Column `df["norm_price"]` of `choose_optimal` (line 122):
`(price - min_price) / (max_price - min_price + 1e-6)`. -/
def normPrice (l : List Listing) (x : Listing) : ℚ :=
  (x.price - minPrice l) / (maxPrice l - minPrice l + eps)

/-- Column `df["norm_rating"]` of `choose_optimal` (line 123):
`(rating - min_rating) / (max_rating - min_rating + 1e-6)`. -/
def normRating (l : List Listing) (x : Listing) : ℚ :=
  (x.rating - minRating l) / (maxRating l - minRating l + eps)

/-- Column `df["score"]` of `choose_optimal` (line 124):
`(1 - norm_price) * 0.6 + norm_rating * 0.4`. -/
def score (l : List Listing) (x : Listing) : ℚ :=
  (1 - normPrice l x) * (3 / 5) + normRating l x * (2 / 5)

/-- Function `choose_optimal` (`src/app.py` lines 117-125): empty input yields no
result; otherwise the head of the rows sorted by `score` descending, i.e.
a row of maximal score.  Among equal scores this embedding returns the
earliest row of the input; the Python code sorts with the `pandas`
default sort kind (quicksort), which is documented as not stable, so for
tied maximal scores the row the code returns is implementation-defined;
the embedding is exact whenever the maximal score is attained once. -/
def choose_optimal (results : List Listing) : Option Listing :=
  match results with
  | [] => none
  | x :: xs => some (xs.foldl (fun best y =>
      if score results best < score results y then y else best) x)

/-! ## Result cache (`scrape_site`, `src/app.py` lines 99-114)

The cache is the `cache/` directory: one file per key, the key being
`hashlib.md5((query + site).encode()).hexdigest()`.  The hash is modelled
as an abstract function parameter `h` applied to the concatenation
`query ++ site`, exactly as the code computes it; every property proved
below holds for an arbitrary `h`, so no collision-freeness assumption on
md5 is used.  The synthetic listing generation (one listing with random
price and rating, lines 106-111) is modelled by the parameter `gen`,
standing for the value the generator would produce on this call. -/

/-- The persistent store: an association from cache key (filename stem)
to the stored listing list. -/
abbrev Cache := List (String × List Listing)

/-- Lookup in the store (`os.path.exists` + `json.load` on a hit). -/
def cacheFind : Cache → String → Option (List Listing)
  | [], _ => none
  | (k, v) :: rest, key => if k = key then some v else cacheFind rest key

/-- The cache key of `scrape_site` line 100: the (md5) hash of the
unseparated concatenation `query + site`. -/
def cacheKey (h : String → String) (query site : String) : String :=
  h (query ++ site)

/-- Outcome of one `scrape_site` call: the returned listings, the store
afterwards, and how many times the fetch/generation step ran. -/
structure ScrapeResult where
  listings : List Listing
  cache : Cache
  fetchCount : Nat
deriving DecidableEq, Repr

/-- Function `scrape_site` (`src/app.py` lines 99-114): on a hit return the stored
value; on a miss run the generation step once, persist its result under
the key, and return it. -/
def scrape_site (h : String → String) (gen : List Listing)
    (query site : String) (c : Cache) : ScrapeResult :=
  match cacheFind c (cacheKey h query site) with
  | some v => ⟨v, c, 0⟩
  | none => ⟨gen, (cacheKey h query site, gen) :: c, 1⟩

/-! ## Aggregation loop (`src/app.py` lines 163-166)

`all_results = []` followed by `for site in supported_sites:
all_results.extend(scrape_site(search_query, site))`.  The loop body has
no exception handler, so a raise inside the per-site step propagates.
The per-site step is modelled as a fallible function `step` (the real
`scrape_site` performs file I/O, which can raise). -/

/-- The fixed site list of `src/app.py` lines 128-131. -/
def supported_sites : List String :=
  ["amazon", "ebay", "flipkart", "snapdeal", "indiamart", "boodmo",
   "pricerunner", "gomechanic", "cardekho", "autodoc", "motointegrator",
   "partslink24", "tecalliance", "camelcamelcamel"]

/-- The aggregation loop: extend the accumulator with each site's
listings in order; an exception from any site's step aborts the loop
(there is no `try`/`except` around the loop body). -/
def aggregate_results (step : String → Except Unit (List Listing)) :
    List String → Except Unit (List Listing)
  | [] => .ok []
  | site :: rest =>
    match step site with
    | .error e => .error e
    | .ok r =>
      match aggregate_results step rest with
      | .error e => .error e
      | .ok rs => .ok (r ++ rs)

/-! ## Query normalizer (`parse_query_llama3`, `src/app.py` lines 51-74)

The external `ollama.chat` call is modelled by `call : Option (List Char)`:
`none` when the call raises, `some content` for the response text.
`json.loads` is external too and is modelled by an arbitrary function
`jsonLoads` returning `none` exactly when parsing raises.  The whole body
sits in a `try`/`except` whose handler returns the fixed placeholder
dict, so the embedding is a total function into `ParsedDict`: the
function cannot raise to its caller by construction. -/

/-- The dictionary shape `parse_query_llama3` returns:
keys `part_type`, `vehicle_model`, `price_range`. -/
structure ParsedDict where
  part_type : String
  vehicle_model : String
  price_range : List ℚ
deriving DecidableEq, Repr

/-- The fallback of the `except` handler (line 74):
`{"part_type": "", "vehicle_model": "", "price_range": [0, 999999]}`. -/
def defaultParsed : ParsedDict := ⟨"", "", [0, 999999]⟩

/-- The character `{` (written via its code point). -/
def braceOpen : Char := Char.ofNat 123

/-- The character `}` (written via its code point). -/
def braceClose : Char := Char.ofNat 125

/-- Python `str.find(c)`: index of the first occurrence, `None` here for
the `-1` of Python. -/
def findChar (c : Char) : List Char → Option Nat
  | [] => none
  | x :: rest =>
    if x = c then some 0 else (findChar c rest).map (fun n => n + 1)

/-- Python `str.rfind(c)`: index of the last occurrence. -/
def rfindChar (c : Char) (content : List Char) : Option Nat :=
  match findChar c content.reverse with
  | none => none
  | some i => some (content.length - 1 - i)

/-- Python slice `content[i:j]` for nonnegative bounds (clamping). -/
def pySlice (content : List Char) (i j : Nat) : List Char :=
  (content.drop i).take (j - i)

/-- Function `parse_query_llama3` (`src/app.py` lines 51-74): on a successful call,
extract the substring between the first `{` and the last `}` and parse it
as JSON; if the call raises, no such delimiters exist (line 71 raises
`ValueError`), or parsing raises, the `except` handler returns
`defaultParsed`. -/
def parse_query_llama3 (jsonLoads : List Char → Option ParsedDict)
    (call : Option (List Char)) : ParsedDict :=
  match call with
  | none => defaultParsed
  | some content =>
    match findChar braceOpen content, rfindChar braceClose content with
    | some i, some j =>
      match jsonLoads (pySlice content i (j + 1)) with
      | some d => d
      | none => defaultParsed
    | _, _ => defaultParsed

/-- The search-query construction of `src/app.py` line 162:
the f-string joining `part_type` and `vehicle_model` around the literal
`" for "`. -/
def search_query (p : ParsedDict) : String :=
  p.part_type ++ " for " ++ p.vehicle_model

/-! ## Site registry (`get_search_url`, `src/app.py` lines 77-96)

`urllib.parse.quote_plus` operates on the UTF-8 encoding of the query, so
queries are modelled as their UTF-8 byte sequences (`List Nat`, each
element `< 256`); UTF-8 encoding of Python strings is injective, so
injectivity over byte sequences gives injectivity over query strings.
Per byte, `quote_plus` maps a space to `+`, keeps the always-safe bytes
(ASCII letters, digits, underscore, dot, dash, tilde; the call passes an
empty safe set),
and renders every other byte as `%` followed by two uppercase hex
digits. -/

/-- The bytes `urllib.parse.quote` never escapes (the call passes an
empty safe set):
digits, ASCII letters, `-`, `.`, `_`, `~`. -/
def isSafeByte (b : Nat) : Bool :=
  (48 ≤ b && b ≤ 57) || (65 ≤ b && b ≤ 90) || (97 ≤ b && b ≤ 122) ||
    b == 45 || b == 46 || b == 95 || b == 126

/-- Uppercase hex digit of a value `< 16` (Python formats escapes with
uppercase two-digit hex). -/
def hexUpper (n : Nat) : Char :=
  if n < 10 then Char.ofNat (48 + n) else Char.ofNat (55 + n)

/-- Encoding of one byte under `quote_plus`. -/
def encodeByte (b : Nat) : List Char :=
  if b == 32 then [Char.ofNat 43]
  else if isSafeByte b then [Char.ofNat b]
  else [Char.ofNat 37, hexUpper (b / 16), hexUpper (b % 16)]

/-- Encoding `urllib.parse.quote_plus` on a UTF-8 byte sequence. -/
def quote_plus : List Nat → List Char
  | [] => []
  | b :: rest => encodeByte b ++ quote_plus rest

/-- Inverse of `hexUpper`: value of an uppercase hex digit. -/
def unhex (c : Char) : Option Nat :=
  if 48 ≤ c.toNat ∧ c.toNat ≤ 57 then some (c.toNat - 48)
  else if 65 ≤ c.toNat ∧ c.toNat ≤ 70 then some (c.toNat - 55)
  else none

/-- Decoder for `quote_plus` output, used to establish injectivity. -/
def decodeQP : List Char → Option (List Nat)
  | [] => some []
  | c :: rest =>
    if c.toNat = 43 then (decodeQP rest).map (fun t => 32 :: t)
    else if c.toNat = 37 then
      match rest with
      | hi :: lo :: rest2 =>
        match unhex hi, unhex lo with
        | some x, some y => (decodeQP rest2).map (fun t => (16 * x + y) :: t)
        | _, _ => none
      | _ => none
    else (decodeQP rest).map (fun t => c.toNat :: t)

/-- Python rstrip of trailing slash characters, on the character list. -/
def rstripSlash (cs : List Char) : List Char :=
  (cs.reverse.dropWhile (fun c => c = Char.ofNat 47)).reverse

/-- The fixed URL template of each site up to the embedded encoded query
(`src/app.py` lines 80-96); every template ends with the encoded query.
Unrecognized sites fall back to the lowered site identifier with
trailing slashes stripped, followed by the generic search path. -/
def urlBase (site : String) : List Char :=
  let s := site.toLower
  if s = "flipkart" then "https://www.flipkart.com/search?q=".data
  else if s = "amazon" then "https://www.amazon.in/s?k=".data
  else if s = "snapdeal" then "https://www.snapdeal.com/search?keyword=".data
  else if s = "ebay" then "https://www.ebay.com/sch/i.html?_nkw=".data
  else if s = "indiamart" then "https://dir.indiamart.com/search.mp?ss=".data
  else if s = "boodmo" then "https://boodmo.com/catalog/search/?q=".data
  else if s = "pricerunner" then "https://www.pricerunner.com/search?q=".data
  else if s = "gomechanic" then "https://gomechanic.in/spares?q=".data
  else if s = "cardekho" then "https://www.cardekho.com/cars?q=".data
  else if s = "autodoc" then "https://www.autodoc.co.uk/search?keyword=".data
  else if s = "motointegrator" then "https://www.motointegrator.com/search?keyword=".data
  else if s = "partslink24" then "https://www.partslink24.com/search?q=".data
  else if s = "tecalliance" then "https://www.tecalliance.com/en/solutions/tecdoc-catalog?q=".data
  else if s = "camelcamelcamel" then "https://camelcamelcamel.com/search?sq=".data
  else rstripSlash s.data ++ "/search?q=".data

/-- Function `get_search_url` (`src/app.py` lines 77-96): the site template with
the percent-encoded query substituted (always at the end). -/
def get_search_url (site : String) (queryBytes : List Nat) : List Char :=
  urlBase site ++ quote_plus queryBytes

/-! ## Concrete listings used by witnesses -/

/-- A sample listing as the synthetic generator shapes them. -/
def sampleA : Listing :=
  ⟨"brake pad - Sample from amazon", 1500, 4, "lnkA"⟩

/-- A second sample listing. -/
def sampleB : Listing :=
  ⟨"brake pad - Sample from ebay", 1800, 9 / 2, "lnkB"⟩

/-- A listing with minimal price and maximal rating in the pairs below. -/
def bestListing : Listing := ⟨"best", 1500, 5, "lnk1"⟩

/-- A listing dominated by `bestListing` on both axes. -/
def otherListing : Listing := ⟨"other", 1800, 4, "lnk2"⟩

/-- A listing priced like `eqPriceB`, rated lower. -/
def eqPriceA : Listing := ⟨"p1", 1000, 4, "lnk3"⟩

/-- A listing priced like `eqPriceA`, rated higher. -/
def eqPriceB : Listing := ⟨"p2", 1000, 9 / 2, "lnk4"⟩

lemma listMin_le_of_mem (f : Listing → ℚ) :
    ∀ (l : List Listing), ∀ x ∈ l, listMin f l ≤ f x := by
  have hfold : ∀ (xs : List Listing) (a : ℚ),
      xs.foldl (fun m y => min m (f y)) a ≤ a ∧
      ∀ x ∈ xs, xs.foldl (fun m y => min m (f y)) a ≤ f x := by
    intro xs
    induction xs with
    | nil => intro a; exact ⟨le_refl a, by intro x hx; cases hx⟩
    | cons y ys ih =>
      intro a
      refine ⟨le_trans (ih (min a (f y))).1 (min_le_left _ _), ?_⟩
      intro x hx
      rcases List.mem_cons.mp hx with h | h
      · subst h
        exact le_trans (ih (min a (f x))).1 (min_le_right _ _)
      · exact (ih (min a (f y))).2 x h
  intro l x hx
  cases l with
  | nil => cases hx
  | cons y ys =>
    rcases List.mem_cons.mp hx with h | h
    · subst h; exact (hfold ys (f x)).1
    · exact (hfold ys (f y)).2 x h

lemma le_listMax_of_mem (f : Listing → ℚ) :
    ∀ (l : List Listing), ∀ x ∈ l, f x ≤ listMax f l := by
  have hfold : ∀ (xs : List Listing) (a : ℚ),
      a ≤ xs.foldl (fun m y => max m (f y)) a ∧
      ∀ x ∈ xs, f x ≤ xs.foldl (fun m y => max m (f y)) a := by
    intro xs
    induction xs with
    | nil => intro a; exact ⟨le_refl a, by intro x hx; cases hx⟩
    | cons y ys ih =>
      intro a
      refine ⟨le_trans (le_max_left _ _) (ih (max a (f y))).1, ?_⟩
      intro x hx
      rcases List.mem_cons.mp hx with h | h
      · subst h
        exact le_trans (le_max_right _ _) (ih (max a (f x))).1
      · exact (ih (max a (f y))).2 x h
  intro l x hx
  cases l with
  | nil => cases hx
  | cons y ys =>
    rcases List.mem_cons.mp hx with h | h
    · subst h; exact (hfold ys (f x)).1
    · exact (hfold ys (f y)).2 x h

/-- The fold inside `choose_optimal` returns an element of the list. -/
lemma choose_optimal_fold_mem (l : List Listing) :
    ∀ (xs : List Listing) (a : Listing),
      xs.foldl (fun best y =>
        if score l best < score l y then y else best) a ∈ a :: xs := by
  intro xs
  induction xs with
  | nil => intro a; exact List.mem_singleton.mpr rfl
  | cons y ys ih =>
    intro a
    by_cases h : score l a < score l y
    · simp only [List.foldl_cons, if_pos h]
      exact List.mem_cons_of_mem _ (ih y)
    · simp only [List.foldl_cons, if_neg h]
      rcases List.mem_cons.mp (ih a) with h' | h'
      · rw [h']; exact List.mem_cons_self _ _
      · exact List.mem_cons_of_mem _ (List.mem_cons_of_mem _ h')

/-- The fold inside `choose_optimal` returns an element of maximal score. -/
lemma choose_optimal_fold_max (l : List Listing) :
    ∀ (xs : List Listing) (a : Listing), ∀ x ∈ a :: xs,
      score l x ≤ score l (xs.foldl (fun best y =>
        if score l best < score l y then y else best) a) := by
  intro xs
  induction xs with
  | nil =>
    intro a x hx
    rcases List.mem_cons.mp hx with h | h
    · exact h ▸ le_refl _
    · cases h
  | cons y ys ih =>
    intro a x hx
    have hstep : score l a ≤ score l (if score l a < score l y then y else a) ∧
        score l y ≤ score l (if score l a < score l y then y else a) := by
      by_cases h : score l a < score l y
      · rw [if_pos h]; exact ⟨le_of_lt h, le_refl _⟩
      · rw [if_neg h]; exact ⟨le_refl _, le_of_not_lt h⟩
    rcases List.mem_cons.mp hx with h | h
    · subst h
      simp only [List.foldl_cons]
      exact le_trans hstep.1
        (ih (if score l x < score l y then y else x) _ (List.mem_cons_self _ _))
    · rcases List.mem_cons.mp h with h' | h'
      · subst h'
        simp only [List.foldl_cons]
        exact le_trans hstep.2
          (ih (if score l a < score l x then x else a) _ (List.mem_cons_self _ _))
      · simp only [List.foldl_cons]
        exact ih _ x (List.mem_cons_of_mem _ h')

lemma minPrice_le_of_mem {l : List Listing} {x : Listing} (hx : x ∈ l) :
    minPrice l ≤ x.price :=
  listMin_le_of_mem _ l x hx

lemma le_maxPrice_of_mem {l : List Listing} {x : Listing} (hx : x ∈ l) :
    x.price ≤ maxPrice l :=
  le_listMax_of_mem _ l x hx

lemma minRating_le_of_mem {l : List Listing} {x : Listing} (hx : x ∈ l) :
    minRating l ≤ x.rating :=
  listMin_le_of_mem _ l x hx

lemma le_maxRating_of_mem {l : List Listing} {x : Listing} (hx : x ∈ l) :
    x.rating ≤ maxRating l :=
  le_listMax_of_mem _ l x hx

lemma eps_pos : 0 < eps := by norm_num [eps]

lemma denomPrice_pos {l : List Listing} (h : l ≠ []) :
    0 < maxPrice l - minPrice l + eps := by
  cases l with
  | nil => exact absurd rfl h
  | cons a xs =>
    have h1 : minPrice (a :: xs) ≤ a.price :=
      minPrice_le_of_mem (List.mem_cons_self _ _)
    have h2 : a.price ≤ maxPrice (a :: xs) :=
      le_maxPrice_of_mem (List.mem_cons_self _ _)
    have := eps_pos
    linarith

lemma denomRating_pos {l : List Listing} (h : l ≠ []) :
    0 < maxRating l - minRating l + eps := by
  cases l with
  | nil => exact absurd rfl h
  | cons a xs =>
    have h1 : minRating (a :: xs) ≤ a.rating :=
      minRating_le_of_mem (List.mem_cons_self _ _)
    have h2 : a.rating ≤ maxRating (a :: xs) :=
      le_maxRating_of_mem (List.mem_cons_self _ _)
    have := eps_pos
    linarith

/-- C1: for every non-empty list of listings, `choose_optimal` computes
`norm_price = (price - min_price) / (max_price - min_price + 1e-6)` and
`norm_rating = (rating - min_rating) / (max_rating - min_rating + 1e-6)`
over the whole list, assigns `score = (1 - norm_price) * 0.6 +
norm_rating * 0.4`, and returns a listing of the list whose score is
maximal. -/
theorem C1_choose_optimal_returns_max_score (l : List Listing) (h : l ≠ []) :
    ∃ r, choose_optimal l = some r ∧ r ∈ l ∧
      (∀ x ∈ l, score l x ≤ score l r) ∧
      (∀ x, score l x =
        (1 - (x.price - minPrice l) / (maxPrice l - minPrice l + eps)) * (3 / 5) +
          (x.rating - minRating l) / (maxRating l - minRating l + eps) * (2 / 5)) := by
  cases l with
  | nil => exact absurd rfl h
  | cons a xs =>
    refine ⟨_, rfl, ?_, ?_, fun x => rfl⟩
    · exact choose_optimal_fold_mem (a :: xs) xs a
    · exact fun x hx => choose_optimal_fold_max (a :: xs) xs a x hx

/-- Witness for C1 at the two-listing scenario list. -/
theorem C1_witness :
    ∃ r, choose_optimal [sampleA, sampleB] = some r ∧ r ∈ [sampleA, sampleB] ∧
      (∀ x ∈ [sampleA, sampleB],
        score [sampleA, sampleB] x ≤ score [sampleA, sampleB] r) ∧
      (∀ x, score [sampleA, sampleB] x =
        (1 - (x.price - minPrice [sampleA, sampleB]) /
            (maxPrice [sampleA, sampleB] - minPrice [sampleA, sampleB] + eps)) * (3 / 5) +
          (x.rating - minRating [sampleA, sampleB]) /
            (maxRating [sampleA, sampleB] - minRating [sampleA, sampleB] + eps) * (2 / 5)) :=
  C1_choose_optimal_returns_max_score [sampleA, sampleB] (List.cons_ne_nil _ _)

lemma listMin_of_all_eq (f : Listing → ℚ) (c : ℚ) :
    ∀ (l : List Listing), l ≠ [] → (∀ x ∈ l, f x = c) → listMin f l = c := by
  have hfold : ∀ (xs : List Listing), (∀ y ∈ xs, f y = c) →
      xs.foldl (fun m y => min m (f y)) c = c := by
    intro xs
    induction xs with
    | nil => intro _; rfl
    | cons y ys ih =>
      intro hall
      have hy : f y = c := hall y (List.mem_cons_self _ _)
      simp only [List.foldl_cons, hy, min_self]
      exact ih (fun z hz => hall z (List.mem_cons_of_mem _ hz))
  intro l hne hall
  cases l with
  | nil => exact absurd rfl hne
  | cons a xs =>
    have ha : f a = c := hall a (List.mem_cons_self _ _)
    show xs.foldl (fun m y => min m (f y)) (f a) = c
    rw [ha]
    exact hfold xs (fun z hz => hall z (List.mem_cons_of_mem _ hz))

lemma listMax_of_all_eq (f : Listing → ℚ) (c : ℚ) :
    ∀ (l : List Listing), l ≠ [] → (∀ x ∈ l, f x = c) → listMax f l = c := by
  have hfold : ∀ (xs : List Listing), (∀ y ∈ xs, f y = c) →
      xs.foldl (fun m y => max m (f y)) c = c := by
    intro xs
    induction xs with
    | nil => intro _; rfl
    | cons y ys ih =>
      intro hall
      have hy : f y = c := hall y (List.mem_cons_self _ _)
      simp only [List.foldl_cons, hy, max_self]
      exact ih (fun z hz => hall z (List.mem_cons_of_mem _ hz))
  intro l hne hall
  cases l with
  | nil => exact absurd rfl hne
  | cons a xs =>
    have ha : f a = c := hall a (List.mem_cons_self _ _)
    show xs.foldl (fun m y => max m (f y)) (f a) = c
    rw [ha]
    exact hfold xs (fun z hz => hall z (List.mem_cons_of_mem _ hz))

/-- C8: for every non-empty list of listings in which all prices are
equal, `norm_price` is 0 for every listing (the `1e-6` summand keeps the
denominator nonzero, so no division-by-zero fault occurs), and the
ranking is determined purely by the rating ordering: scores compare
exactly as ratings do. -/
theorem C8_equal_prices_rating_ordering (l : List Listing) (c : ℚ)
    (hne : l ≠ []) (hall : ∀ x ∈ l, x.price = c) :
    (∀ x ∈ l, normPrice l x = 0) ∧
    (∀ x ∈ l, ∀ y ∈ l,
      (score l x ≤ score l y ↔ x.rating ≤ y.rating) ∧
      (score l x < score l y ↔ x.rating < y.rating)) := by
  have hmin : minPrice l = c := listMin_of_all_eq _ c l hne hall
  have hmax : maxPrice l = c := listMax_of_all_eq _ c l hne hall
  have hnp : ∀ x ∈ l, normPrice l x = 0 := by
    intro x hx
    unfold normPrice
    rw [hmin, hmax, hall x hx, sub_self, zero_div]
  refine ⟨hnp, ?_⟩
  intro x hx y hy
  have hDr : 0 < maxRating l - minRating l + eps := denomRating_pos hne
  have hscore : ∀ z ∈ l, score l z = 3 / 5 + normRating l z * (2 / 5) := by
    intro z hz
    unfold score
    rw [hnp z hz]
    ring
  rw [hscore x hx, hscore y hy]
  unfold normRating
  constructor
  · constructor
    · intro h
      have h2 : (x.rating - minRating l) / (maxRating l - minRating l + eps) ≤
          (y.rating - minRating l) / (maxRating l - minRating l + eps) := by
        nlinarith
      have := (div_le_div_iff_of_pos_right hDr).mp h2
      linarith
    · intro h
      have h2 : x.rating - minRating l ≤ y.rating - minRating l := by linarith
      have := (div_le_div_iff_of_pos_right hDr).mpr h2
      nlinarith
  · constructor
    · intro h
      have h2 : (x.rating - minRating l) / (maxRating l - minRating l + eps) <
          (y.rating - minRating l) / (maxRating l - minRating l + eps) := by
        nlinarith
      have := (div_lt_div_iff_of_pos_right hDr).mp h2
      linarith
    · intro h
      have h2 : x.rating - minRating l < y.rating - minRating l := by linarith
      have := (div_lt_div_iff_of_pos_right hDr).mpr h2
      nlinarith

/-- Witness for C8 at a concrete equal-price list. -/
theorem C8_witness :
    (∀ x ∈ [eqPriceA, eqPriceB], normPrice [eqPriceA, eqPriceB] x = 0) ∧
    (∀ x ∈ [eqPriceA, eqPriceB], ∀ y ∈ [eqPriceA, eqPriceB],
      (score [eqPriceA, eqPriceB] x ≤ score [eqPriceA, eqPriceB] y ↔
        x.rating ≤ y.rating) ∧
      (score [eqPriceA, eqPriceB] x < score [eqPriceA, eqPriceB] y ↔
        x.rating < y.rating)) :=
  C8_equal_prices_rating_ordering [eqPriceA, eqPriceB] 1000
    (List.cons_ne_nil _ _) (by decide)

lemma score_of_min_price {l : List Listing} {L : Listing}
    (hmin : L.price = minPrice l) :
    score l L = 3 / 5 + normRating l L * (2 / 5) := by
  unfold score normPrice
  rw [hmin, sub_self, zero_div]
  ring

lemma score_lt_of_dominated {l : List Listing} {L x : Listing}
    (hL : L ∈ l) (hx : x ∈ l)
    (hmin : L.price = minPrice l) (hmax : L.rating = maxRating l)
    (hd : L.price < x.price ∨ x.rating < L.rating) :
    score l x < score l L := by
  have hne : l ≠ [] := List.ne_nil_of_mem hL
  have hDp : 0 < maxPrice l - minPrice l + eps := denomPrice_pos hne
  have hDr : 0 < maxRating l - minRating l + eps := denomRating_pos hne
  rw [score_of_min_price hmin]
  have hnr_le : normRating l x ≤ normRating l L := by
    unfold normRating
    have h1 : x.rating ≤ L.rating := hmax ▸ le_maxRating_of_mem hx
    exact (div_le_div_iff_of_pos_right hDr).mpr (by linarith)
  rcases hd with hp | hr
  · have hnp_pos : 0 < normPrice l x := by
      unfold normPrice
      apply div_pos _ hDp
      have := hmin ▸ hp
      linarith
    unfold score
    nlinarith
  · have hnp_nonneg : 0 ≤ normPrice l x := by
      unfold normPrice
      apply div_nonneg _ (le_of_lt hDp)
      have := minPrice_le_of_mem hx
      linarith
    have hnr_lt : normRating l x < normRating l L := by
      unfold normRating
      exact (div_lt_div_iff_of_pos_right hDr).mpr (by linarith)
    unfold score
    nlinarith

/-- C7: for every non-empty list of listings containing a listing `L`
whose price is the minimum price and whose rating is the maximum rating,
and which strictly beats every other listing on at least one of the two
axes, `choose_optimal` returns `L`. -/
theorem C7_choose_optimal_dominant (l : List Listing) (L : Listing)
    (hL : L ∈ l) (hmin : L.price = minPrice l) (hmax : L.rating = maxRating l)
    (hdom : ∀ x ∈ l, x ≠ L → L.price < x.price ∨ x.rating < L.rating) :
    choose_optimal l = some L := by
  cases l with
  | nil => cases hL
  | cons a xs =>
    have hrmem : xs.foldl (fun best y =>
        if score (a :: xs) best < score (a :: xs) y then y else best) a ∈ a :: xs :=
      choose_optimal_fold_mem (a :: xs) xs a
    have hrmax : score (a :: xs) L ≤ score (a :: xs) (xs.foldl (fun best y =>
        if score (a :: xs) best < score (a :: xs) y then y else best) a) :=
      choose_optimal_fold_max (a :: xs) xs a L hL
    show some _ = some L
    congr 1
    by_contra hne
    have hstrict := score_lt_of_dominated hL hrmem hmin hmax
      (hdom _ hrmem hne)
    linarith

/-- Witness for C7: the cheapest best-rated listing wins at a concrete
pair, placed second in the merge order. -/
theorem C7_witness :
    choose_optimal [otherListing, bestListing] = some bestListing :=
  C7_choose_optimal_dominant [otherListing, bestListing] bestListing
    (by decide) (by decide) (by decide) (by decide)

/-- C2: on a hit for the pair's key, `scrape_site` returns the stored
listing list without running the fetch/generation step; on a miss it
runs it exactly once, persists the result under the key, and returns it;
consequently a second call with the same pair returns listing content
identical to the first call's result without fetching again. -/
theorem C2_scrape_site_cache_contract (h : String → String)
    (query site : String) (c : Cache) (gen gen2 : List Listing) :
    (∀ v, cacheFind c (cacheKey h query site) = some v →
      scrape_site h gen query site c = ⟨v, c, 0⟩) ∧
    (cacheFind c (cacheKey h query site) = none →
      scrape_site h gen query site c =
        ⟨gen, (cacheKey h query site, gen) :: c, 1⟩) ∧
    ((scrape_site h gen2 query site
        (scrape_site h gen query site c).cache).listings =
      (scrape_site h gen query site c).listings ∧
     (scrape_site h gen2 query site
        (scrape_site h gen query site c).cache).fetchCount = 0) := by
  refine ⟨?_, ?_, ?_⟩
  · intro v hv
    unfold scrape_site
    rw [hv]
  · intro hv
    unfold scrape_site
    rw [hv]
  · cases hc : cacheFind c (cacheKey h query site) with
    | some v => simp [scrape_site, hc]
    | none => simp [scrape_site, hc, cacheFind]

/-- Witness for C2: a hit on a pre-populated store returns the stored
listings with no fetch. -/
theorem C2_witness :
    scrape_site id [sampleB] "q" "amazon" [("qamazon", [sampleA])] =
      ⟨[sampleA], [("qamazon", [sampleA])], 0⟩ :=
  (C2_scrape_site_cache_contract id "q" "amazon"
    [("qamazon", [sampleA])] [sampleB] [sampleB]).1 [sampleA] rfl

/-- C10: the cache key is the hash of the unseparated concatenation
`query ++ site`, so two distinct pairs with equal concatenation share a
key; a call with the second pair after a call with the first returns the
first pair's cached listings without fetching. -/
theorem C10_concat_key_collision (h : String → String)
    (q1 s1 q2 s2 : String) (_hpair : (q1, s1) ≠ (q2, s2))
    (hconcat : q1 ++ s1 = q2 ++ s2)
    (gen1 gen2 : List Listing) (c : Cache) :
    cacheKey h q1 s1 = cacheKey h q2 s2 ∧
    ((scrape_site h gen2 q2 s2 (scrape_site h gen1 q1 s1 c).cache).listings =
       (scrape_site h gen1 q1 s1 c).listings ∧
     (scrape_site h gen2 q2 s2
        (scrape_site h gen1 q1 s1 c).cache).fetchCount = 0) := by
  have hkey : cacheKey h q1 s1 = cacheKey h q2 s2 := by
    unfold cacheKey
    rw [hconcat]
  refine ⟨hkey, ?_⟩
  cases hc : cacheFind c (cacheKey h q1 s1) with
  | some v => simp [scrape_site, hc, ← hkey]
  | none => simp [scrape_site, hc, ← hkey, cacheFind]

/-- Witness for C10 at the pairs `("brake a", "mazon")` and
`("brake ", "amazon")`, whose concatenations coincide. -/
theorem C10_witness :
    cacheKey id "brake a" "mazon" = cacheKey id "brake " "amazon" ∧
    ((scrape_site id [sampleB] "brake " "amazon"
        (scrape_site id [sampleA] "brake a" "mazon" []).cache).listings =
       (scrape_site id [sampleA] "brake a" "mazon" []).listings ∧
     (scrape_site id [sampleB] "brake " "amazon"
        (scrape_site id [sampleA] "brake a" "mazon" []).cache).fetchCount = 0) :=
  C10_concat_key_collision id "brake a" "mazon" "brake " "amazon"
    (by decide) (by decide) [sampleA] [sampleB] []

/-- C3 counterexample: with a per-site step that succeeds for `"amazon"`
with one listing and fails for `"ebay"`, the aggregation loop returns the
failure instead of completing with the successful site's listings. -/
theorem C3_counterexample :
    aggregate_results
        (fun site => if site = "ebay" then .error () else .ok [sampleA])
        ["amazon", "ebay"] = .error () ∧
    aggregate_results
        (fun site => if site = "ebay" then .error () else .ok [sampleA])
        ["amazon", "ebay"] ≠ .ok [sampleA] := by
  constructor
  · rfl
  · intro h
    cases h

/-- C3 amended: the aggregation loop has no exception handler, so a
failure of the per-site step for any registered site makes the whole
aggregation fail rather than contributing zero listings for that site;
the merged listings are returned only when every site's step succeeds. -/
theorem C3_failure_aborts_aggregation
    (step : String → Except Unit (List Listing)) (sites : List String) :
    ((∃ s ∈ sites, step s = .error ()) →
      aggregate_results step sites = .error ()) ∧
    (∀ rs, aggregate_results step sites = .ok rs →
      ∀ s ∈ sites, ∃ r, step s = .ok r) := by
  induction sites with
  | nil =>
    constructor
    · rintro ⟨s, hs, _⟩
      cases hs
    · intro rs _ s hs
      cases hs
  | cons a rest ih =>
    constructor
    · rintro ⟨s, hs, herr⟩
      rcases List.mem_cons.mp hs with hsa | hsr
      · subst hsa
        unfold aggregate_results
        rw [herr]
      · cases hstep : step a with
        | error e =>
          unfold aggregate_results
          rw [hstep]
        | ok r =>
          unfold aggregate_results
          rw [hstep, ih.1 ⟨s, hsr, herr⟩]
    · intro rs hrs s hs
      cases hstep : step a with
      | error e =>
        unfold aggregate_results at hrs
        rw [hstep] at hrs
        cases hrs
      | ok r =>
        unfold aggregate_results at hrs
        rw [hstep] at hrs
        cases hrec : aggregate_results step rest with
        | error e =>
          rw [hrec] at hrs
          cases hrs
        | ok rs2 =>
          rw [hrec] at hrs
          rcases List.mem_cons.mp hs with hsa | hsr
          · subst hsa
            exact ⟨r, hstep⟩
          · exact ih.2 rs2 hrec s hsr

/-- Witness for C3 amended: a failure at `"amazon"` aborts the whole
aggregation over the registered site list. -/
theorem C3_witness :
    aggregate_results
        (fun site => if site = "amazon" then .error () else .ok [sampleA])
        supported_sites = .error () :=
  (C3_failure_aborts_aggregation _ supported_sites).1
    ⟨"amazon", by decide, by rfl⟩

lemma findChar_eq_none {c : Char} :
    ∀ {content : List Char}, c ∉ content → findChar c content = none := by
  intro content
  induction content with
  | nil => intro _; rfl
  | cons x rest ih =>
    intro hmem
    have hx : ¬x = c := fun h => hmem (h ▸ List.mem_cons_self _ _)
    unfold findChar
    rw [if_neg hx, ih (fun h => hmem (List.mem_cons_of_mem _ h))]
    rfl

lemma rfindChar_eq_none {c : Char} {content : List Char}
    (hmem : c ∉ content) : rfindChar c content = none := by
  unfold rfindChar
  rw [findChar_eq_none (fun h => hmem (List.mem_reverse.mp h))]

/-- C4: `parse_query_llama3` is total into `ParsedDict` (the catch-all
`except` absorbs every failure, so it never raises to its caller); when
the external call fails, when the response contains no `{`-`}` delimited
JSON object, or when JSON parsing of the extracted substring fails, it
returns the placeholder with empty `part_type`, empty `vehicle_model`,
and `price_range` `[0, 999999]`. -/
theorem C4_parse_query_fallback (jsonLoads : List Char → Option ParsedDict)
    (call : Option (List Char)) :
    (call = none → parse_query_llama3 jsonLoads call = defaultParsed) ∧
    (∀ content, call = some content →
      ((braceOpen ∉ content ∨ braceClose ∉ content) →
        parse_query_llama3 jsonLoads call = defaultParsed) ∧
      (∀ i j, findChar braceOpen content = some i →
        rfindChar braceClose content = some j →
        jsonLoads (pySlice content i (j + 1)) = none →
        parse_query_llama3 jsonLoads call = defaultParsed)) ∧
    (defaultParsed.part_type = "" ∧ defaultParsed.vehicle_model = "" ∧
      defaultParsed.price_range = [0, 999999]) := by
  refine ⟨?_, ?_, rfl, rfl, rfl⟩
  · intro hcall
    rw [hcall]
    rfl
  · intro content hcall
    subst hcall
    constructor
    · intro hno
      show parse_query_llama3 jsonLoads (some content) = defaultParsed
      simp only [parse_query_llama3]
      rcases hno with hno | hno
      · rw [findChar_eq_none hno]
      · cases hf : findChar braceOpen content with
        | none => rfl
        | some i => rw [rfindChar_eq_none hno]
    · intro i j hf hr hjson
      show parse_query_llama3 jsonLoads (some content) = defaultParsed
      simp only [parse_query_llama3]
      rw [hf, hr]
      show (match jsonLoads (pySlice content i (j + 1)) with
        | some d => d
        | none => defaultParsed) = defaultParsed
      rw [hjson]

/-- Witness for C4: a failing external call yields the placeholder. -/
theorem C4_witness :
    parse_query_llama3 (fun _ => none) none = defaultParsed :=
  (C4_parse_query_fallback (fun _ => none) none).1 rfl

/-- C5 counterexample: when the language-model call fails on the raw
query `"brake pad for Honda City"`, the search query built at
`src/app.py` line 162 from the fallback dict is `" for "`, not the raw
text. -/
theorem C5_counterexample :
    search_query (parse_query_llama3 (fun _ => none) none) = " for " ∧
    search_query (parse_query_llama3 (fun _ => none) none) ≠
      "brake pad for Honda City" := by
  refine ⟨rfl, ?_⟩
  decide

/-- C5 amended: for every raw query, when the language-model call fails
the parse falls back to the empty placeholder, and the search query used
for all site lookups is the degenerate string `" for "` (empty
`part_type` and `vehicle_model` joined by the literal), not the raw
text. -/
theorem C5_fallback_search_query
    (jsonLoads : List Char → Option ParsedDict)
    (call : Option (List Char)) (hfail : call = none) :
    search_query (parse_query_llama3 jsonLoads call) = " for " := by
  subst hfail
  rfl

/-- Witness for C5 amended at a concrete failing call. -/
theorem C5_witness :
    search_query (parse_query_llama3 (fun _ => some defaultParsed) none) =
      " for " :=
  C5_fallback_search_query (fun _ => some defaultParsed) none rfl

lemma char_toNat_ofNat {b : Nat} (h : b < 55296) : (Char.ofNat b).toNat = b := by
  have hv : Nat.isValidChar b := Or.inl h
  simp only [Char.ofNat, hv, dite_true, Char.ofNatAux, Char.toNat]
  simp [UInt32.toNat, BitVec.toNat_ofNatLt]

lemma isSafeByte_ranges {b : Nat} (h : isSafeByte b = true) :
    (48 ≤ b ∧ b ≤ 57) ∨ (65 ≤ b ∧ b ≤ 90) ∨ (97 ≤ b ∧ b ≤ 122) ∨
      b = 45 ∨ b = 46 ∨ b = 95 ∨ b = 126 := by
  simp only [isSafeByte, Bool.or_eq_true, Bool.and_eq_true, decide_eq_true_eq,
    beq_iff_eq] at h
  tauto

lemma unhex_hexUpper {n : Nat} (h : n < 16) : unhex (hexUpper n) = some n := by
  unfold hexUpper unhex
  by_cases h10 : n < 10
  · rw [if_pos h10]
    have ht : (Char.ofNat (48 + n)).toNat = 48 + n := char_toNat_ofNat (by omega)
    rw [ht]
    rw [if_pos (by omega)]
    congr 1
    omega
  · rw [if_neg h10]
    have ht : (Char.ofNat (55 + n)).toNat = 55 + n := char_toNat_ofNat (by omega)
    rw [ht]
    rw [if_neg (by omega), if_pos (by omega)]
    congr 1
    omega

lemma decodeQP_quote_plus :
    ∀ (bs : List Nat), (∀ b ∈ bs, b < 256) →
      decodeQP (quote_plus bs) = some bs := by
  intro bs
  induction bs with
  | nil => intro _; rfl
  | cons b rest ih =>
    intro hall
    have hb : b < 256 := hall b (List.mem_cons_self _ _)
    have hrest := ih (fun x hx => hall x (List.mem_cons_of_mem _ hx))
    show decodeQP (encodeByte b ++ quote_plus rest) = some (b :: rest)
    unfold encodeByte
    by_cases h32 : b = 32
    · subst h32
      rw [if_pos (show (32 == 32) = true from rfl)]
      show decodeQP (Char.ofNat 43 :: quote_plus rest) = some (32 :: rest)
      unfold decodeQP
      rw [if_pos (by decide), hrest]
      rfl
    · rw [if_neg (by simpa using h32)]
      by_cases hsafe : isSafeByte b = true
      · rw [if_pos hsafe]
        show decodeQP (Char.ofNat b :: quote_plus rest) = some (b :: rest)
        have ht : (Char.ofNat b).toNat = b := char_toNat_ofNat (by omega)
        have hb43 : b ≠ 43 := by
          rcases isSafeByte_ranges hsafe with h | h | h | h | h | h | h <;> omega
        have hb37 : b ≠ 37 := by
          rcases isSafeByte_ranges hsafe with h | h | h | h | h | h | h <;> omega
        unfold decodeQP
        rw [ht, if_neg hb43, if_neg hb37, hrest]
        rfl
      · rw [if_neg hsafe]
        have hu1 : unhex (hexUpper (b / 16)) = some (b / 16) :=
          unhex_hexUpper (show b / 16 < 16 by omega)
        have hu2 : unhex (hexUpper (b % 16)) = some (b % 16) :=
          unhex_hexUpper (show b % 16 < 16 by omega)
        show (match unhex (hexUpper (b / 16)), unhex (hexUpper (b % 16)) with
          | some x, some y =>
            Option.map (fun t => (16 * x + y) :: t) (decodeQP (quote_plus rest))
          | _, _ => none) = some (b :: rest)
        rw [hu1, hu2]
        show Option.map (fun t => (16 * (b / 16) + b % 16) :: t)
          (decodeQP (quote_plus rest)) = some (b :: rest)
        rw [hrest]
        have hdm : 16 * (b / 16) + b % 16 = b := Nat.div_add_mod b 16
        rw [hdm]
        rfl

lemma quote_plus_injective {bs1 bs2 : List Nat}
    (h1 : ∀ b ∈ bs1, b < 256) (h2 : ∀ b ∈ bs2, b < 256)
    (heq : quote_plus bs1 = quote_plus bs2) : bs1 = bs2 := by
  have e1 := decodeQP_quote_plus bs1 h1
  have e2 := decodeQP_quote_plus bs2 h2
  rw [heq, e2] at e1
  exact (Option.some_inj.mp e1).symm

/-- C9: for every site identifier and every pair of distinct non-empty
query byte sequences, `get_search_url` produces distinct URL strings:
the percent-encoding of the query into the per-site template is
injective in the query argument. -/
theorem C9_get_search_url_injective (site : String) (q1 q2 : List Nat)
    (h1 : ∀ b ∈ q1, b < 256) (h2 : ∀ b ∈ q2, b < 256)
    (_hq1 : q1 ≠ []) (_hq2 : q2 ≠ []) (hne : q1 ≠ q2) :
    get_search_url site q1 ≠ get_search_url site q2 := by
  intro h
  apply hne
  apply quote_plus_injective h1 h2
  exact List.append_cancel_left h

/-- Witness for C9: the queries `"a"` and `"b"` yield distinct amazon
URLs. -/
theorem C9_witness :
    get_search_url "amazon" [97] ≠ get_search_url "amazon" [98] :=
  C9_get_search_url_injective "amazon" [97] [98]
    (by decide) (by decide) (by decide) (by decide) (by decide)

end Autoscrap
